import Mathlib

/-!
Verification of the ganaterm terminal assistant (src/ganaterm.py) against its
natural-language specification.

The Python source is shallowly embedded below.  Pure text-processing functions
(`is_dangerous_command`, `detect_code_blocks`, `suggest_filename`,
`process_response`) are translated directly.  Effectful functions
(`save_to_history`, `load_history`, `stream_response`, `chat_once`,
`handle_commands`) are embedded by making their effects explicit: the history
file is a `String` value, the network is an oracle parameter mapping a provider
name to its streamed frames (or failure), `random.choice` / `time.time` /
`datetime.now` become explicit parameters, and interactive `input()` answers
become a list of strings.

Conventions:
- Python's `re` regexes are embedded through a small backtracking matcher over
  an explicit regex AST (`RE`); each pattern string of the source is transcribed
  into that AST.  The matcher enumerates match results in Python's backtracking
  order (greedy repetition first, left alternative first) so that `re.search`'s
  chosen match and its group 1 coincide with the head of the enumeration.
- Python's `\w` (`str` patterns are Unicode-aware) is modelled as ASCII
  alphanumeric, `_`, or any code point ≥ 0x80; this is adequate for every tag
  the program treats specially (e.g. the Chinese word "命令", whose characters
  are word characters in Python).  `\s` and `str.strip()` use the ASCII
  whitespace set, and `str.lower()` lowers ASCII letters only.
- JSON values are embedded as `JVal`; numeric literals are kept as their
  lexemes (the program never computes with JSON numbers).  `json.dumps` with
  `ensure_ascii=False` and `json.loads` are embedded as `dumpRecord` (for the
  one object shape the program writes) and `jsonLoads`.
-/

/-! ## Python character and string helpers -/

/-- ASCII whitespace as used by `str.strip()` and `\s` (space, tab, newline,
carriage return, vertical tab, form feed). -/
def pyIsSpace (c : Char) : Bool :=
  c = ' ' || c = '\t' || c = '\n' || c = '\r' || c = '\x0b' || c = '\x0c'

/-- Python `\w` on `str` patterns: ASCII alphanumerics, underscore, and (as an
approximation of Unicode word characters) every code point at or above 0x80. -/
def isWordCharPy (c : Char) : Bool :=
  c.isAlphanum || c = '_' || decide (0x80 ≤ c.toNat)

/-- `str.lower()` restricted to ASCII letters (identity elsewhere). -/
def pyLowerChar (c : Char) : Char :=
  if 65 ≤ c.toNat ∧ c.toNat ≤ 90 then Char.ofNat (c.toNat + 32) else c

def pyLower (s : String) : String := ⟨s.data.map pyLowerChar⟩

/-- `str.strip()` on a character list. -/
def pyStripL (l : List Char) : List Char :=
  ((l.dropWhile pyIsSpace).reverse.dropWhile pyIsSpace).reverse

def pyStrip (s : String) : String := ⟨pyStripL s.data⟩

/-- Substring test, Python's `needle in hay`. -/
def pySubAux (n : List Char) : List Char → Bool
  | [] => decide (n = [])
  | l@(_ :: t) => n.isPrefixOf l || pySubAux n t

def pyIn (needle hay : String) : Bool := pySubAux needle.data hay.data

/-- `str.split('\n')` (on lists): the list of segments between newlines;
`split [] = [[]]`, like Python's `"".split('\n') == [""]`. -/
def splitNlL : List Char → List (List Char)
  | [] => [[]]
  | c :: t =>
    if c = '\n' then [] :: splitNlL t
    else match splitNlL t with
      | [] => [[c]]
      | h :: r => (c :: h) :: r

def splitNl (s : String) : List String := (splitNlL s.data).map (⟨·⟩)

/-- Iterating over an open text file yields its lines; the trailing segment
after the last newline is a line only when nonempty.  (Terminators are dropped
here; the program strips each line before use, which removes them anyway.) -/
def fileLines (s : String) : List String :=
  let parts := splitNl s
  if parts.getLast? = some "" then parts.dropLast else parts

/-! ## Regex engine

A small backtracking matcher for the regex subset used by the source:
literals, `.`, character classes (`[rf]`, `\s`, `\S`, `\w`), concatenation,
alternation `|`, greedy `*` `+` `?`, one capturing group, and the zero-width
word boundary `\b`.  `mrun` returns the list of possible matcher states after
matching a regex, in Python's backtracking preference order; `reSearchFrom`
mimics `re.search` by anchoring at each position from the left. -/

inductive CC where
  | set (cs : List Char)
  | space
  | notSpace
  | word
deriving Repr

def ccMatch : CC → Char → Bool
  | .set cs, c => cs.contains c
  | .space, c => pyIsSpace c
  | .notSpace, c => !pyIsSpace c
  | .word, c => isWordCharPy c

inductive RE where
  | eps
  | lit (c : Char)
  | dot
  | cls (k : CC)
  | cat (a b : RE)
  | alt (a b : RE)
  | star (a : RE)
  | grp (a : RE)
  | wb
deriving Repr

def reCat : List RE → RE
  | [] => .eps
  | [r] => r
  | r :: rs => .cat r (reCat rs)

def reStr (s : String) : RE := reCat (s.data.map .lit)

def rePlus (r : RE) : RE := .cat r (.star r)

def reOpt (r : RE) : RE := .alt r .eps

/-- Matcher state: remaining input, previous character (for `\b`), and the
capture of group 1 if it has matched. -/
structure MSt where
  rest : List Char
  prev : Option Char
  cap : Option (List Char)
deriving Repr

/-- One step over a character-consuming construct. -/
def mEat (st : MSt) (p : Char → Bool) : List MSt :=
  match st.rest with
  | [] => []
  | x :: xs => if p x then [⟨xs, some x, st.cap⟩] else []

/-- Size of a regex, used only to compute a sufficient fuel bound. -/
def reSize : RE → Nat
  | .eps => 1
  | .lit _ => 1
  | .dot => 1
  | .cls _ => 1
  | .cat a b => reSize a + reSize b + 1
  | .alt a b => reSize a + reSize b + 1
  | .star a => reSize a + 1
  | .grp a => reSize a + 1
  | .wb => 1

/-- All matcher states reachable by matching `r` from `st`, in Python's
backtracking preference order (greedy repetitions first — iterations of a
star must consume input, the standard treatment of nullable bodies — and left
alternatives first), so the head corresponds to `re`'s chosen match.

The fuel is structural-recursion bookkeeping only: along any call path each
step either descends into a strict subterm of the regex or unfolds a star on a
strictly shorter input, so the recursion depth is at most
`reSize r * (length + 2)`, and `reSearchFrom` supplies at least that much. -/
def mrun : Nat → RE → MSt → List MSt
  | 0, _, _ => []
  | f + 1, r, st =>
    match r with
    | .eps => [st]
    | .lit c => mEat st (· = c)
    | .dot => mEat st (· ≠ '\n')
    | .cls k => mEat st (ccMatch k)
    | .cat a b => ((mrun f a st).map (fun st' => mrun f b st')).flatten
    | .alt a b => mrun f a st ++ mrun f b st
    | .star a =>
      (((mrun f a st).filter (fun st' => st'.rest.length < st.rest.length)).map
        (fun st' => mrun f (.star a) st')).flatten ++ [st]
    | .grp a =>
      (mrun f a st).map (fun st' =>
        { st' with cap := some (st.rest.take (st.rest.length - st'.rest.length)) })
    | .wb =>
      let pw := match st.prev with | some c => isWordCharPy c | none => false
      let nw := match st.rest.head? with | some c => isWordCharPy c | none => false
      if pw ≠ nw then [st] else []

/-- `re.search`: try to match at each position from the left; return the first
position's preferred result. -/
def reSearchFrom (r : RE) : List Char → Option Char → Option MSt
  | s, p =>
    match mrun (reSize r * (s.length + 2) + 1) r ⟨s, p, none⟩ with
    | m :: _ => some m
    | [] =>
      match s with
      | [] => none
      | c :: t => reSearchFrom r t (some c)

/-- `re.search(r, s) is not None`. -/
def reSearch (r : RE) (s : String) : Bool :=
  (reSearchFrom r s.data none).isSome

/-- `m = re.search(r, s); m.group(1) if m else None` (for patterns whose
successful match always fills group 1). -/
def reSearchGroup (r : RE) (s : String) : Option String :=
  match reSearchFrom r s.data none with
  | some m => m.cap.map (⟨·⟩)
  | none => none

/-! ## Safety classifier: `is_dangerous_command` (ganaterm.py:569-596)

The nine pattern strings of `dangerous_patterns`, transcribed into `RE`.
Note that in pattern 7, `()` is an empty group (matching the empty string) and
`{` / `}` are literal braces, exactly as Python's `re` treats them. -/

def patRm : RE :=
  reCat [.wb, reStr "rm", rePlus (.cls .space),
    reOpt (reCat [.lit '-', rePlus (.cls (.set ['r', 'f'])), rePlus (.cls .space)]),
    .alt (.lit '/') (.alt (.lit '~') (reStr ".."))]

def patMv : RE :=
  reCat [.wb, reStr "mv", rePlus (.cls .space), rePlus (.cls .notSpace),
    rePlus (.cls .space), .alt (.lit '/') (.lit '~')]

def patDd : RE := reCat [.wb, reStr "dd", rePlus (.cls .space)]

def patFormat : RE := reCat [.wb, reStr "format", .wb]

def patMkfs : RE := reCat [.wb, reStr "mkfs", .wb]

def patPower : RE :=
  reCat [.wb,
    .alt (reStr "halt") (.alt (reStr "poweroff") (.alt (reStr "shutdown") (reStr "reboot"))),
    .wb]

def patForkBomb : RE :=
  reCat [.lit ':', .grp .eps, .lit '\x7b', .star .dot, .lit '\x7d', .lit ';', .lit ':']

def patChmod : RE :=
  reCat [.wb, reStr "chmod", rePlus (.cls .space), .lit '-', .cls (.set ['R']),
    .star .dot, reStr "777", .wb]

def patPipeShell : RE :=
  reCat [.wb, .alt (reStr "wget") (reStr "curl"), .star .dot, .lit '|',
    .star (.cls .space), .alt (reStr "bash") (reStr "sh"), .wb]

def dangerous_patterns : List RE :=
  [patRm, patMv, patDd, patFormat, patMkfs, patPower, patForkBomb, patChmod, patPipeShell]

/-- `is_dangerous_command` (ganaterm.py:569): any of the nine patterns found
anywhere in the command makes it dangerous. -/
def is_dangerous_command (command : String) : Bool :=
  dangerous_patterns.any (reSearch · command)

/-! ## Code-block parser: `detect_code_blocks` (ganaterm.py:598-630)

The source applies `re.finditer` with the pattern ```` ```(\w*)\n([\s\S]*?)\n``` ````.
A match at a position requires: the three backticks, then the maximal run of
word characters (the tag; since `\w` cannot match `\n`, no backtracking inside
the tag is possible), then a newline, then (lazily) the shortest content such
that the next characters are a newline and three backticks.  `finditer` scans
left to right and resumes scanning after each match's end.  `scanBlocks`
implements exactly this; its fuel is the remaining input length, which never
runs out because every step consumes at least one character. -/

structure CodeBlock where
  /-- dict key "language" -/
  language : String
  /-- dict key "content" -/
  content : String
  /-- dict key "start": `match.start()` -/
  start : Nat
  /-- dict key "end": `match.end()` -/
  stop : Nat
  /-- dict key "is_command" -/
  is_command : Bool
deriving Repr, DecidableEq

/-- Offset of the first occurrence of newline-plus-three-backticks (the
closing delimiter matched by the lazy `([\s\S]*?)\n``` `). -/
def findClose : List Char → Option Nat
  | [] => none
  | c :: rest =>
    if c = '\n' ∧ "```".data.isPrefixOf rest then some 0
    else (findClose rest).map (· + 1)

/-- Attempt the fenced-block match at the head of `s`; on success return the
raw tag, the content, and the total number of characters matched. -/
def tryBlock (s : List Char) : Option (String × String × Nat) :=
  if "```".data.isPrefixOf s then
    let rest := s.drop 3
    let tag := rest.takeWhile isWordCharPy
    match rest.drop tag.length with
    | '\n' :: body =>
      match findClose body with
      | some k => some (⟨tag⟩, ⟨body.take k⟩, 3 + tag.length + 1 + k + 4)
      | none => none
    | _ => none
  else none

/-- Build the dict appended for one match: `lang = match.group(1) or "text"`,
and the tag `命令` is rewritten to `bash` with `is_command = True`. -/
def mkBlock (tag content : String) (start stop : Nat) : CodeBlock :=
  let lang := if tag = "" then "text" else tag
  if pyLower lang = "命令" then ⟨"bash", content, start, stop, true⟩
  else ⟨lang, content, start, stop, false⟩

def scanBlocks : Nat → List Char → Nat → List CodeBlock
  | 0, _, _ => []
  | _ + 1, [], _ => []
  | f + 1, s@(_ :: t), pos =>
    match tryBlock s with
    | some (tag, content, len) =>
      mkBlock tag content pos (pos + len) :: scanBlocks f (s.drop len) (pos + len)
    | none => scanBlocks f t (pos + 1)

def detect_code_blocks (text : String) : List CodeBlock :=
  scanBlocks text.data.length text.data 0

/-! ## Filename advisor: `suggest_filename` (ganaterm.py:632-701) -/

/-- The `extensions` language-to-extension dict, in source order. -/
def extensionsTable : List (String × String) :=
  [("python", ".py"), ("py", ".py"), ("javascript", ".js"), ("js", ".js"),
   ("typescript", ".ts"), ("ts", ".ts"), ("html", ".html"), ("css", ".css"),
   ("json", ".json"), ("bash", ".sh"), ("shell", ".sh"), ("sh", ".sh"),
   ("ruby", ".rb"), ("go", ".go"), ("java", ".java"), ("c", ".c"),
   ("cpp", ".cpp"), ("c++", ".cpp"), ("rust", ".rs"), ("rs", ".rs")]

/-- `extensions.get(lang, ".txt")` (the dict literal has pairwise distinct
keys, so first-match lookup equals dict lookup). -/
def extGet (lang : String) : String :=
  match extensionsTable.find? (fun kv => kv.1 = lang) with
  | some kv => kv.2
  | none => ".txt"

/-- `(?:\/\/|#)\s*filename\s*:\s*(\S+)` -/
def fnPat1 : RE :=
  reCat [.alt (reStr "//") (.lit '#'), .star (.cls .space), reStr "filename",
    .star (.cls .space), .lit ':', .star (.cls .space), .grp (rePlus (.cls .notSpace))]

/-- `\/\*\s*filename\s*:\s*(\S+)\s*\*\/` -/
def fnPat2 : RE :=
  reCat [reStr "/*", .star (.cls .space), reStr "filename", .star (.cls .space),
    .lit ':', .star (.cls .space), .grp (rePlus (.cls .notSpace)),
    .star (.cls .space), reStr "*/"]

/-- `<!--\s*filename\s*:\s*(\S+)\s*-->` -/
def fnPat3 : RE :=
  reCat [reStr "<!--", .star (.cls .space), reStr "filename", .star (.cls .space),
    .lit ':', .star (.cls .space), .grp (rePlus (.cls .notSpace)),
    .star (.cls .space), reStr "-->"]

/-- The `for pattern in filename_patterns` loop: first pattern that matches
wins, returning its group 1. -/
def findDirective (content : String) : Option String :=
  match reSearchGroup fnPat1 content with
  | some n => some n
  | none =>
    match reSearchGroup fnPat2 content with
    | some n => some n
    | none => reSearchGroup fnPat3 content

/-- `class\s+(\w+)` -/
def classPat : RE := reCat [reStr "class", rePlus (.cls .space), .grp (rePlus (.cls .word))]

/-- `suggest_filename` (ganaterm.py:632).  `now` is `int(time.time())`, made
an explicit parameter. -/
def suggest_filename (code_block : CodeBlock) (now : Nat) : String :=
  let lang := pyLower code_block.language
  let content := code_block.content
  match findDirective content with
  | some name => name
  | none =>
    let ext := extGet lang
    let deflt := "file_" ++ toString now ++ ext
    if lang = "python" ∨ lang = "py" then
      if pyIn "def main" content || pyIn "if __name__ == \"__main__\"" content then
        "main.py"
      else if pyIn "class" content then
        match reSearchGroup classPat content with
        | some cn => pyLower cn ++ ".py"
        | none => deflt
      else deflt
    else if lang = "js" ∨ lang = "javascript" then
      if pyIn "function main" content || pyIn "const main" content then "main.js"
      else deflt
    else if lang = "html" then "index.html"
    else if lang = "sh" ∨ lang = "bash" ∨ lang = "shell" then "script.sh"
    else deflt

/-! ## Response parser: `process_response` (ganaterm.py:920-946)

The command pattern is `^(?:\!|\$)\s*(.+)$`, applied with `re.match` to each
`line.strip()`.  On a stripped line (no leading/trailing whitespace, and no
newline since lines come from `split('\n')`): the match succeeds exactly when
the first character is `!` or `$` and at least one character follows, because
`.+` needs one character and `\s*` backtracks as needed; since the last
character of a stripped nonempty tail is not whitespace, the greedy `\s*` ends
at the first non-space and group 1 is the tail minus its leading whitespace. -/

/-- The per-line body of the command-extraction loop: `re.match` on the
stripped line, `cmd = match.group(1).strip()`, kept only when
`cmd and not is_dangerous_command(cmd)`. -/
def lineCommand (line : String) : Option String :=
  match (pyStrip line).data with
  | [] => none
  | c :: rest =>
    if (c = '!' ∨ c = '$') ∧ rest ≠ [] then
      let cmd := pyStrip ⟨rest.dropWhile pyIsSpace⟩
      if cmd ≠ "" ∧ ¬ is_dangerous_command cmd then some cmd else none
    else none

/-- `re.sub(r"^(?:\!|\$)\s*(.+)$", r"\1", response, flags=re.MULTILINE)`: at
each line start whose first character is `!` or `$`, the greedy `\s*` consumes
the longest whitespace run (possibly spanning newlines, since `\s` matches
`\n`) that still leaves a non-newline character for `.+`; `.+` then runs to the
next newline or the end, `$` matches there, and the whole match is replaced by
group 1.  `cleanScan` walks the text left to right implementing exactly this;
`lineStart` records whether the current position follows a newline (where `^`
can match).  Fuel is the remaining length; every step consumes a character. -/
def cleanScan : Nat → List Char → Bool → List Char
  | 0, s, _ => s
  | _ + 1, [], _ => []
  | f + 1, c :: t, lineStart =>
    if lineStart ∧ (c = '!' ∨ c = '$') then
      let ws := (t.takeWhile pyIsSpace).length
      -- greedy backtracking: largest k ≤ ws with a non-newline character at t[k]
      let k? := (List.range (ws + 1)).reverse.find?
        (fun k => match t.get? k with | some d => d ≠ '\n' | none => false)
      match k? with
      | some k =>
        let grp := (t.drop k).takeWhile (· ≠ '\n')
        grp ++ cleanScan f (t.drop (k + grp.length)) false
      | none => c :: cleanScan f t false
    else if c = '\n' then c :: cleanScan f t true
    else c :: cleanScan f t false

/-- `process_response` (ganaterm.py:920): returns the cleaned response, the
code blocks, and the extracted (non-dangerous) commands.  Note: the command
loop runs over every line of the response; it does not exclude lines lying
inside fenced code blocks. -/
def process_response (response : String) : String × List CodeBlock × List String :=
  let code_blocks := detect_code_blocks response
  let commands := (splitNl response).filterMap lineCommand
  let cleaned_response : String := ⟨cleanScan response.data.length response.data true⟩
  (cleaned_response, code_blocks, commands)

/-! ## Command executor: `handle_commands` (ganaterm.py:948-968)

Embedded as the list of commands actually passed to `execute_command`, given
the sequence of `input()` answers.  A dangerous command is refused with a
message and skipped before any `input()` is read; a non-dangerous command is
executed exactly when the stripped, lowered answer is `y`.  If the answers run
out, `input()` raises `EOFError` and nothing further is executed. -/

def handle_commands : List String → List String → List String
  | [], _ => []
  | cmd :: rest, inputs =>
    if is_dangerous_command cmd then
      handle_commands rest inputs
    else
      match inputs with
      | [] => []
      | choice :: more =>
        if pyLower (pyStrip choice) = "y" then cmd :: handle_commands rest more
        else handle_commands rest more

/-! ## JSON (the subset of `json.dumps` / `json.loads` the program exercises)

`JVal` represents Python's JSON values; numeric literals are kept as their raw
lexemes (the program never computes with JSON numbers, it only stores, fails
on, or ignores them).  `dumpRecord` is `json.dumps({"time": t, "role": r,
"content": c}, ensure_ascii=False)` and `jsonLoads` is `json.loads` (returning
`none` for `json.JSONDecodeError`).  One representational approximation: a
lone surrogate `\uXXXX` escape, which Python would keep as a lone surrogate
code unit, becomes U+FFFD (Lean strings hold scalar values only); parse
success/failure is unaffected. -/

inductive JVal where
  | null
  | bool (b : Bool)
  | num (lexeme : String)
  | str (s : String)
  | arr (elems : List JVal)
  | obj (members : List (String × JVal))
deriving Repr, Inhabited

def hexDigit (n : Nat) : Char :=
  if n < 10 then Char.ofNat (48 + n) else Char.ofNat (87 + n)

/-- `json.dumps` (`ensure_ascii=False`) escaping of one character: `"`,
backslash, the named control escapes, `\u00xx` for other control characters,
and everything else verbatim. -/
def escChar (c : Char) : List Char :=
  if c = '"' then ['\\', '"']
  else if c = '\\' then ['\\', '\\']
  else if c = '\x08' then ['\\', 'b']
  else if c = '\t' then ['\\', 't']
  else if c = '\n' then ['\\', 'n']
  else if c = '\x0c' then ['\\', 'f']
  else if c = '\x0d' then ['\\', 'r']
  else if c.toNat < 0x20 then ['\\', 'u', '0', '0', hexDigit (c.toNat / 16), hexDigit (c.toNat % 16)]
  else [c]

def escape (l : List Char) : List Char := (l.map escChar).flatten

def quoteJson (s : String) : String := ⟨'"' :: (escape s.data ++ ['"'])⟩

/-- `json.dumps({"time": t, "role": role, "content": content},
ensure_ascii=False)`: fixed key order (Python dicts preserve insertion order)
and the default `", "` / `": "` separators. -/
def dumpRecord (t role content : String) : String :=
  "\x7b\"time\": " ++ quoteJson t ++ ", \"role\": " ++ quoteJson role ++
    ", \"content\": " ++ quoteJson content ++ "\x7d"

def pyJsonWs (c : Char) : Bool := c = ' ' || c = '\t' || c = '\n' || c = '\r'

def skipWs (l : List Char) : List Char := l.dropWhile pyJsonWs

def hexVal? (c : Char) : Option Nat :=
  if '0' ≤ c ∧ c ≤ '9' then some (c.toNat - 48)
  else if 'a' ≤ c ∧ c ≤ 'f' then some (c.toNat - 87)
  else if 'A' ≤ c ∧ c ≤ 'F' then some (c.toNat - 55)
  else none

/-- Decode one `\\uXXXX` escape whose four characters are `h1..h4`, with `r`
the input after them: the decoded character and how many further characters of
`r` (a following low-surrogate escape) were consumed.  A lone surrogate, which
Python would keep as a lone code unit, becomes U+FFFD. -/
def uEscape (h1 h2 h3 h4 : Char) (r : List Char) : Option (Char × Nat) :=
  match hexVal? h1, hexVal? h2, hexVal? h3, hexVal? h4 with
  | some a, some b, some c, some d =>
    let n := ((a * 16 + b) * 16 + c) * 16 + d
    if 0xD800 ≤ n ∧ n ≤ 0xDBFF then
      match r with
      | '\\' :: 'u' :: g1 :: g2 :: g3 :: g4 :: _ =>
        match hexVal? g1, hexVal? g2, hexVal? g3, hexVal? g4 with
        | some e1, some e2, some e3, some e4 =>
          let m := ((e1 * 16 + e2) * 16 + e3) * 16 + e4
          if 0xDC00 ≤ m ∧ m ≤ 0xDFFF then
            some (Char.ofNat (0x10000 + (n - 0xD800) * 0x400 + (m - 0xDC00)), 6)
          else some ('\uFFFD', 0)
        | _, _, _, _ => some ('\uFFFD', 0)
      | _ => some ('\uFFFD', 0)
    else if 0xDC00 ≤ n ∧ n ≤ 0xDFFF then some ('\uFFFD', 0)
    else some (Char.ofNat n, 0)
  | _, _, _, _ => none

/-- JSON string body (after the opening quote): strict mode, so raw control
characters are rejected; standard escapes; `\uXXXX` with surrogate-pair
combination via `uEscape`.  The fuel only makes the recursion structural:
every step consumes at least one input character, so `length + 1` (what every
caller passes) never runs out. -/
def parseStrAux : Nat → List Char → Option (List Char × List Char)
  | 0, _ => none
  | _ + 1, [] => none
  | f + 1, c :: rest =>
    if c = '"' then some ([], rest)
    else if c = '\\' then
      match rest with
      | [] => none
      | e :: r1 =>
        if e = '"' then (parseStrAux f r1).map (fun p => ('"' :: p.1, p.2))
        else if e = '\\' then (parseStrAux f r1).map (fun p => ('\\' :: p.1, p.2))
        else if e = '/' then (parseStrAux f r1).map (fun p => ('/' :: p.1, p.2))
        else if e = 'b' then (parseStrAux f r1).map (fun p => ('\x08' :: p.1, p.2))
        else if e = 'f' then (parseStrAux f r1).map (fun p => ('\x0c' :: p.1, p.2))
        else if e = 'n' then (parseStrAux f r1).map (fun p => ('\n' :: p.1, p.2))
        else if e = 'r' then (parseStrAux f r1).map (fun p => ('\x0d' :: p.1, p.2))
        else if e = 't' then (parseStrAux f r1).map (fun p => ('\t' :: p.1, p.2))
        else if e = 'u' then
          match r1 with
          | h1 :: h2 :: h3 :: h4 :: r =>
            match uEscape h1 h2 h3 h4 r with
            | some (ch, skip) => (parseStrAux f (r.drop skip)).map (fun p => (ch :: p.1, p.2))
            | none => none
          | _ => none
        else none
    else if c.toNat < 0x20 then none
    else (parseStrAux f rest).map (fun p => (c :: p.1, p.2))

/-- Optional fraction and exponent after the integer part (mirroring json's
`NUMBER_RE`: an incomplete fraction/exponent is simply not consumed). -/
def parseNumAfterInt (acc : List Char) (s : List Char) : List Char × List Char :=
  let fr :=
    match s with
    | '.' :: t =>
      let ds := t.takeWhile Char.isDigit
      if ds = [] then (acc, s) else (acc ++ '.' :: ds, t.drop ds.length)
    | _ => (acc, s)
  match fr.2 with
  | e :: t =>
    if e = 'e' ∨ e = 'E' then
      let sgn : List Char × List Char :=
        match t with
        | '+' :: u => (['+'], u)
        | '-' :: u => (['-'], u)
        | _ => ([], t)
      let ds := sgn.2.takeWhile Char.isDigit
      if ds = [] then fr else (fr.1 ++ e :: (sgn.1 ++ ds), sgn.2.drop ds.length)
    else fr
  | [] => fr

/-- The number lexeme `(-?(?:0|[1-9]\d*))(\.\d+)?([eE][-+]?\d+)?`. -/
def parseNumber (s : List Char) : Option (List Char × List Char) :=
  let sgn : List Char × List Char :=
    match s with
    | '-' :: t => (['-'], t)
    | _ => ([], s)
  match sgn.2 with
  | '0' :: t => some (parseNumAfterInt (sgn.1 ++ ['0']) t)
  | c :: t =>
    if c.isDigit then
      let ds := t.takeWhile Char.isDigit
      some (parseNumAfterInt (sgn.1 ++ c :: ds) (t.drop ds.length))
    else none
  | [] => none

mutual

/-- One JSON value at the head of the input (whitespace already skipped), in
the order Python's scanner tries alternatives; consumes fuel only on nesting
and on object/array element steps, each of which consumes input, so fuel
`length + 1` suffices. -/
def parseValueF : Nat → List Char → Option (JVal × List Char)
  | 0, _ => none
  | f + 1, s =>
    match s with
    | '"' :: rest => (parseStrAux (rest.length + 1) rest).map (fun p => (.str ⟨p.1⟩, p.2))
    | '\x7b' :: rest =>
      match skipWs rest with
      | '\x7d' :: r => some (.obj [], r)
      | '"' :: r => parseMembersF f [] r
      | _ => none
    | '[' :: rest =>
      match skipWs rest with
      | ']' :: r => some (.arr [], r)
      | r => parseElemsF f [] r
    | _ =>
      if "null".data.isPrefixOf s then some (.null, s.drop 4)
      else if "true".data.isPrefixOf s then some (.bool true, s.drop 4)
      else if "false".data.isPrefixOf s then some (.bool false, s.drop 5)
      else
        match parseNumber s with
        | some (lex, r) => some (.num ⟨lex⟩, r)
        | none =>
          if "NaN".data.isPrefixOf s then some (.num "NaN", s.drop 3)
          else if "Infinity".data.isPrefixOf s then some (.num "Infinity", s.drop 8)
          else if "-Infinity".data.isPrefixOf s then some (.num "-Infinity", s.drop 9)
          else none

/-- Object members; the input starts just after the opening quote of a key. -/
def parseMembersF : Nat → List (String × JVal) → List Char → Option (JVal × List Char)
  | 0, _, _ => none
  | f + 1, acc, s =>
    match parseStrAux (s.length + 1) s with
    | none => none
    | some (k, r1) =>
      match skipWs r1 with
      | ':' :: r2 =>
        match parseValueF f (skipWs r2) with
        | none => none
        | some (v, r3) =>
          match skipWs r3 with
          | '\x7d' :: r4 => some (.obj (acc ++ [(⟨k⟩, v)]), r4)
          | ',' :: r4 =>
            match skipWs r4 with
            | '"' :: r5 => parseMembersF f (acc ++ [(⟨k⟩, v)]) r5
            | _ => none
          | _ => none
      | _ => none

/-- Array elements; the input starts at a value (whitespace skipped). -/
def parseElemsF : Nat → List JVal → List Char → Option (JVal × List Char)
  | 0, _, _ => none
  | f + 1, acc, s =>
    match parseValueF f s with
    | none => none
    | some (v, r) =>
      match skipWs r with
      | ']' :: r2 => some (.arr (acc ++ [v]), r2)
      | ',' :: r2 => parseElemsF f (acc ++ [v]) (skipWs r2)
      | _ => none

end

/-- `json.loads`: a single value with surrounding whitespace, nothing after
("Extra data" otherwise); `none` models `json.JSONDecodeError`. -/
def jsonLoads (s : String) : Option JVal :=
  let cs := skipWs s.data
  match parseValueF (cs.length + 1) cs with
  | some (v, r) => if skipWs r = [] then some v else none
  | none => none

/-! ## History store: `save_to_history` (ganaterm.py:255-267) and
`load_history` (ganaterm.py:236-253)

The history file is modelled as its `String` contents ("" for the absent or
empty file, which both load as just the system message).  `load_history`
catches only `json.JSONDecodeError`; a line that parses as JSON but is not an
object with both `role` and `content` keys raises `TypeError`/`KeyError`,
which nothing catches, so the whole load aborts — hence the `Except`.  Loaded
entries keep their JSON values (nothing coerces them to strings), so an entry
is a pair of `JVal`s `(msg["role"], msg["content"])`. -/

inductive PyErr where
  | keyError
  | typeError
deriving Repr, DecidableEq

/-- Python dict built by `json.loads`: later duplicate keys overwrite, so
lookup returns the last binding. -/
def objLookup (ms : List (String × JVal)) (k : String) : Option JVal :=
  ((ms.filter (fun kv => kv.1 = k)).getLast?).map (·.2)

/-- Python subscription `v[k]` with a string key. -/
def getItem : JVal → String → Except PyErr JVal
  | .obj ms, k =>
    match objLookup ms k with
    | some v => .ok v
    | none => .error .keyError
  | _, _ => .error .typeError

/-- The system prompt (ganaterm.py:136-150), element 0 of every conversation. -/
def SYSTEM_PROMPT : String :=
  "你是一个轻量级终端AI助手，具有以下能力:\n" ++
  "1. 回答用户的技术问题，尤其擅长Linux/命令行/编程相关问题\n" ++
  "2. 提供命令行建议，并可以直接执行命令\n" ++
  "3. 生成代码并可以创建文件\n" ++
  "保持专业、简洁的回答风格，尽量少用emoji和表情符号。\n\n" ++
  "输出格式规范：\n" ++
  "1. 当提供命令时，使用以下格式：\n" ++
  "```命令\n你的命令内容\n```\n\n" ++
  "2. 当提供脚本时，务必指定语言类型，使用以下格式：\n" ++
  "```python\n你的Python代码\n```\n" ++
  "```javascript\n你的JavaScript代码\n```\n" ++
  "```bash\n你的Bash脚本\n```\n" ++
  "始终在代码块中明确注明语言类型，以便正确识别。"

/-- `save_to_history(role, content)`: append one JSON line; `now` is
`str(datetime.now())`, made an explicit parameter. -/
def save_to_history (now role content : String) (file : String) : String :=
  file ++ dumpRecord now role content ++ "\n"

/-- One iteration of the `for line in f` loop of `load_history`. -/
def loadLine (acc : List (JVal × JVal)) (line : String) : Except PyErr (List (JVal × JVal)) :=
  match jsonLoads (pyStrip line) with
  | none => .ok acc
  | some v => do
    let r ← getItem v "role"
    let c ← getItem v "content"
    .ok (acc ++ [(r, c)])

/-- `load_history`: start from the system message, then parse each line
independently, skipping (with a warning) lines that fail JSON decoding. -/
def load_history (file : String) : Except PyErr (List (JVal × JVal)) :=
  (fileLines file).foldlM loadLine [(.str "system", .str SYSTEM_PROMPT)]

/-! ## Stream aggregator: `stream_response` (ganaterm.py:849-902)

Each provider's live stream is modelled as the list of decoded lines yielded
by `response.iter_lines()`.  The aggregation loop: empty lines are skipped;
only lines starting with `"data: "` are considered; `"data: [DONE]"` breaks;
otherwise the payload after the 6-character prefix goes through `json.loads`
(`JSONDecodeError` continues the loop), and a fragment is appended exactly
when the payload is an object whose `choices` is a nonempty array whose first
element is an object whose `delta` (an object, defaulting to `{}`) maps
`content` to a string — every other shape raises inside the `try` and is
caught by the generic `except`, which keeps the aggregate intact. -/

/-- The text fragment contributed by one `data: ` payload, `none` when the
frame is skipped (parse failure or any exception caught by the loop). -/
def frameDelta (payload : String) : Option String :=
  match jsonLoads payload with
  | none => none
  | some v =>
    match v with
    | .obj ms =>
      match objLookup ms "choices" with
      | some (.arr (first :: _)) =>
        match first with
        | .obj fms =>
          match (objLookup fms "delta").getD (.obj []) with
          | .obj dms =>
            match objLookup dms "content" with
            | some (.str s) => some s
            | _ => none
          | _ => none
        | _ => none
      | _ => none
    | _ => none

/-- The `for line in response_stream.iter_lines()` aggregation loop. -/
def aggregateStream : List String → String
  | [] => ""
  | l :: ls =>
    if l = "" then aggregateStream ls
    else if "data: ".data.isPrefixOf l.data then
      if l = "data: [DONE]" then ""
      else ((frameDelta (l.drop 6)).getD "") ++ aggregateStream ls
    else aggregateStream ls

/-- `colored_text(text, Fore.RED)` (colorama `Fore.RED` + `Style.RESET_ALL`). -/
def colorRed (s : String) : String := "\x1b[31m" ++ s ++ "\x1b[0m"

/-- `colored_text(text, Fore.YELLOW)`. -/
def colorYellow (s : String) : String := "\x1b[33m" ++ s ++ "\x1b[0m"

/-- API keys as loaded from the environment; `""` means unconfigured. -/
structure ApiKeys where
  openai : String
  deepseek : String
  xai : String
deriving Repr, DecidableEq

/-- `API_KEYS[model]` for the three models the program ever passes (the
trial list of `chat_once` only contains these). -/
def keyFor (keys : ApiKeys) (model : String) : String :=
  if model = "openai" then keys.openai
  else if model = "deepseek" then keys.deepseek
  else if model = "xai" then keys.xai
  else ""

/-- Outcome of one provider's HTTP call, the network made explicit:
`connFail` is `call_*_api` returning `None` (an exception in `requests.post`),
`frames` is a live stream of decoded lines, `raisedErr e` is an exception
raised while iterating the stream (caught by `stream_response`'s outer
`try`, which discards any partial aggregate). -/
inductive ApiResult where
  | connFail
  | frames (lines : List String)
  | raisedErr (err : String)

/-- `stream_response(model, messages)` (ganaterm.py:849).  The `messages`
argument does not influence the modelled outcome; `api` is the network
oracle. -/
def stream_response (keys : ApiKeys) (api : String → ApiResult) (model : String) : String :=
  let handle : ApiResult → String := fun r =>
    match r with
    | .connFail => colorRed ("错误: 无法连接到" ++ model ++ "服务")
    | .frames ls => aggregateStream ls
    | .raisedErr e => colorRed (model ++ "请求错误: " ++ e)
  if model = "openai" ∧ keys.openai ≠ "" then handle (api "openai")
  else if model = "xai" ∧ keys.xai ≠ "" then handle (api "xai")
  else if model = "deepseek" ∧ keys.deepseek ≠ "" then handle (api "deepseek")
  else colorRed ("错误: 模型" ++ model ++ "不可用或未配置API密钥")

/-! ## Provider fallback orchestrator: `chat_once` (ganaterm.py:1086-1176)

State threaded explicitly: the in-memory `history` (a list of role/content
pairs), the history file contents, and `current_model`.  `random.choice` in
`fallback_response` becomes the index parameter `rnd`; the two
`str(datetime.now())` stamps become `tU` (user save) and `tA` (assistant
save).  The spinner thread and the rendering calls have no effect on this
state and are omitted, as are the interactive `handle_commands` /
`handle_code_blocks` calls after a success (they touch this state only through
a re-entrant `chat_once` on an explicit edit request, which no claim
exercises). -/

/-- `list(dict.fromkeys(l))`: de-duplicate keeping first occurrences. -/
def dedupAux (seen : List String) : List String → List String
  | [] => []
  | x :: xs =>
    if seen.contains x then dedupAux seen xs
    else x :: dedupAux (seen ++ [x]) xs

def dedupFirst (l : List String) : List String := dedupAux [] l

/-- The five fixed local replies of `fallback_response` (ganaterm.py:904). -/
def fallbackResponses : List String :=
  ["看起来网络有点问题，无法连接到服务器。",
   "API服务暂时不可用，请稍后再试。",
   "无法连接到AI服务，请检查你的网络连接。",
   "服务器似乎没有响应，请稍后再试。",
   "API调用失败，请确认你的API密钥是否有效。"]

/-- `fallback_response()`: a pseudo-random element of the fixed set, wrapped
in yellow.  `rnd` stands for the index drawn by `random.choice`. -/
def fallback_response (rnd : Nat) : String :=
  colorYellow (fallbackResponses.getD (rnd % 5) "")

/-- The error check of the fallback loop (ganaterm.py:1126):
`message.startswith("错误:") or "请求错误" in message`. -/
def errorDetected (message : String) : Bool :=
  "错误:".data.isPrefixOf message.data || pyIn "请求错误" message

/-- Result of one `chat_once` turn: the returned message and the final
history list, history-file contents, and `current_model`. -/
structure TurnOut where
  message : String
  history : List (String × String)
  file : String
  model : String
deriving Repr, DecidableEq

/-- The `for model in models_to_try` loop of `chat_once`: skip models without
a key; on a message that passes the error check, append and persist the
assistant message and update `current_model`; otherwise fall through; when
the list is exhausted, synthesize, append, and persist the fallback. -/
def chatAttempts (keys : ApiKeys) (api : String → ApiResult) (tA : String)
    (hist : List (String × String)) (file : String) (cm : String) (rnd : Nat) :
    List String → TurnOut
  | [] =>
    let fb := fallback_response rnd
    ⟨fb, hist ++ [("assistant", fb)], save_to_history tA "assistant" fb file, cm⟩
  | m :: ms =>
    if keyFor keys m = "" then chatAttempts keys api tA hist file cm rnd ms
    else
      let message := stream_response keys api m
      if errorDetected message then chatAttempts keys api tA hist file cm rnd ms
      else ⟨message, hist ++ [("assistant", message)],
        save_to_history tA "assistant" message file, m⟩

/-- `chat_once(prompt)` (ganaterm.py:1086): append and persist the user turn,
then try `list(dict.fromkeys([current_model, "deepseek", "xai", "openai"]))`
in order. -/
def chat_once (keys : ApiKeys) (api : String → ApiResult) (tU tA : String)
    (rnd : Nat) (hist : List (String × String)) (file : String) (cm : String)
    (prompt : String) : TurnOut :=
  let hist1 := hist ++ [("user", prompt)]
  let file1 := save_to_history tU "user" prompt file
  chatAttempts keys api tA hist1 file1 cm rnd
    (dedupFirst [cm, "deepseek", "xai", "openai"])

/-! ## General lemmas -/

theorem toNat_ofNat_valid (n : Nat) (h : n.isValidChar) : (Char.ofNat n).toNat = n := by
  simp [Char.ofNat, h, Char.ofNatAux, Char.toNat, UInt32.toNat]

/-- A successful `lineCommand` certifies the command: it comes from the
stripped line's tail, is nonempty, and passed the safety check. -/
theorem lineCommand_some {line s : String} (h : lineCommand line = some s) :
    ∃ c rest, (pyStrip line).data = c :: rest ∧ (c = '!' ∨ c = '$') ∧ rest ≠ [] ∧
      s = pyStrip ⟨rest.dropWhile pyIsSpace⟩ ∧ s ≠ "" ∧
      is_dangerous_command s = false := by
  unfold lineCommand at h
  split at h
  · exact absurd h (by simp)
  next c rest heq =>
    split at h
    next h1 =>
      dsimp only at h
      split at h
      next h2 =>
        obtain rfl : pyStrip ⟨rest.dropWhile pyIsSpace⟩ = s := by simpa using h
        exact ⟨c, rest, heq, h1.1, h1.2, rfl, h2.1, by simpa using h2.2⟩
      · exact absurd h (by simp)
    · exact absurd h (by simp)

/-- The converse: those facts reconstruct the `lineCommand` result. -/
theorem lineCommand_eq_some {line s : String}
    (h : ∃ c rest, (pyStrip line).data = c :: rest ∧ (c = '!' ∨ c = '$') ∧ rest ≠ [] ∧
      s = pyStrip ⟨rest.dropWhile pyIsSpace⟩ ∧ s ≠ "" ∧
      is_dangerous_command s = false) :
    lineCommand line = some s := by
  obtain ⟨c, rest, hl, hc, hr, hs, hne, hdang⟩ := h
  unfold lineCommand
  rw [hl]
  dsimp only
  rw [if_pos ⟨hc, hr⟩, if_pos ⟨by rw [← hs]; exact hne, by rw [← hs]; simp [hdang]⟩, ← hs]

/-- C1: a dangerous command string never appears in `process_response`'s
command list (the guard `not is_dangerous_command(cmd)` precedes every
append), and `handle_commands` never executes it for any sequence of
confirmation inputs (the dangerous branch refuses and `continue`s before ever
reading input). -/
theorem dangerous_never_listed_nor_executed (s : String)
    (h : is_dangerous_command s = true) :
    (∀ response, s ∉ (process_response response).2.2) ∧
    (∀ cmds inputs, s ∉ handle_commands cmds inputs) := by
  constructor
  · intro response hmem
    have hmem' : s ∈ (splitNl response).filterMap lineCommand := hmem
    rw [List.mem_filterMap] at hmem'
    obtain ⟨line, _, hline⟩ := hmem'
    obtain ⟨_, _, _, _, _, _, _, hdang⟩ := lineCommand_some hline
    rw [h] at hdang
    exact absurd hdang (by simp)
  · intro cmds
    induction cmds with
    | nil => intro inputs; simp [handle_commands]
    | cons cmd rest ih =>
      intro inputs
      unfold handle_commands
      by_cases hd : is_dangerous_command cmd
      · rw [if_pos hd]; exact ih inputs
      · rw [if_neg hd]
        match inputs with
        | [] => simp
        | choice :: more =>
          dsimp only
          by_cases hy : pyLower (pyStrip choice) = "y"
          · rw [if_pos hy]
            intro hmem
            rcases List.mem_cons.mp hmem with rfl | hmem'
            · rw [h] at hd; exact hd rfl
            · exact ih more hmem'
          · rw [if_neg hy]; exact ih more

theorem dangerous_never_listed_nor_executed_witness :
    is_dangerous_command "rm -rf /" = true ∧
    "rm -rf /" ∉ (process_response "$ rm -rf /\n$ echo ok").2.2 ∧
    "rm -rf /" ∉ handle_commands ["rm -rf /", "echo ok"] ["y", "y"] :=
  ⟨by decide,
   (dangerous_never_listed_nor_executed "rm -rf /" (by decide)).1 _,
   (dangerous_never_listed_nor_executed "rm -rf /" (by decide)).2 _ _⟩

/-- C4 counterexample: the command loop of `process_response` does not exclude
lines inside fenced code blocks.  In `"```bash\n$ echo hi\n```"` the line
`"$ echo hi"` lies inside the single fenced block (which spans the whole
text), yet it yields the command candidate `"echo hi"`. -/
theorem command_extracted_from_inside_fence :
    (process_response "```bash\n$ echo hi\n```").2.2 = ["echo hi"] ∧
    detect_code_blocks "```bash\n$ echo hi\n```" =
      [⟨"bash", "$ echo hi", 0, 21, false⟩] := by
  exact ⟨by decide, by decide⟩

/-- C4 as amended: a command candidate is produced for exactly the lines of
the response — anywhere in the text, fenced code blocks not excluded — whose
stripped text matches `^(!|$)\s*(.+)$` with a nonempty command that the safety
classifier does not flag; the candidate is the matched group, stripped. -/
theorem process_response_commands_iff (response s : String) :
    s ∈ (process_response response).2.2 ↔
      ∃ line ∈ splitNl response, ∃ c rest,
        (pyStrip line).data = c :: rest ∧ (c = '!' ∨ c = '$') ∧ rest ≠ [] ∧
        s = pyStrip ⟨rest.dropWhile pyIsSpace⟩ ∧ s ≠ "" ∧
        is_dangerous_command s = false := by
  have hm : s ∈ (process_response response).2.2 ↔
      s ∈ (splitNl response).filterMap lineCommand := Iff.rfl
  rw [hm, List.mem_filterMap]
  constructor
  · rintro ⟨line, hline, hsome⟩
    exact ⟨line, hline, lineCommand_some hsome⟩
  · rintro ⟨line, hline, hex⟩
    exact ⟨line, hline, lineCommand_eq_some hex⟩

/-- C9: the explicit `filename:` directive wins outright over every heuristic
(the directive scan precedes them all and returns immediately), and on
`("python", "def main(): pass")` the advisor deterministically answers
`main.py`, whatever the current time. -/
theorem filename_directive_wins_and_main_py :
    (∀ (b : CodeBlock) (now : Nat) (name : String),
        findDirective b.content = some name → suggest_filename b now = name) ∧
    (∀ now : Nat,
        suggest_filename ⟨"python", "def main(): pass", 0, 0, false⟩ now = "main.py") := by
  constructor
  · intro b now name h
    unfold suggest_filename
    dsimp only
    rw [h]
  · intro now
    rfl

theorem filename_directive_wins_and_main_py_witness :
    findDirective "# filename: app.py" = some "app.py" ∧
    suggest_filename ⟨"text", "# filename: app.py", 0, 0, false⟩ 7 = "app.py" :=
  ⟨by decide,
   filename_directive_wins_and_main_py.1 ⟨"text", "# filename: app.py", 0, 0, false⟩ 7
     "app.py" (by decide)⟩

theorem all_takeWhile_self (p : Char → Bool) (l : List Char) :
    (l.takeWhile p).all p = true := by
  induction l with
  | nil => rfl
  | cons c t ih =>
    rw [List.takeWhile]
    cases hp : p c with
    | false => rfl
    | true => simp [hp, ih]

theorem tryBlock_tag {s : List Char} {tag content : String} {len : Nat}
    (h : tryBlock s = some (tag, content, len)) :
    tag.data.all isWordCharPy = true := by
  unfold tryBlock at h
  split at h
  · dsimp only at h
    split at h
    next body heq =>
      split at h
      next k hk =>
        obtain ⟨rfl, -, -⟩ : (⟨(s.drop 3).takeWhile isWordCharPy⟩ : String) = tag ∧
            (⟨body.take k⟩ : String) = content ∧
            3 + ((s.drop 3).takeWhile isWordCharPy).length + 1 + k + 4 = len := by
          simpa using h
        exact all_takeWhile_self _ _
      · exact absurd h (by simp)
    · exact absurd h (by simp)
  · exact absurd h (by simp)

theorem mkBlock_language_all {tag : String} (content : String) (a b : Nat)
    (h : tag.data.all isWordCharPy = true) :
    (mkBlock tag content a b).language.data.all isWordCharPy = true := by
  unfold mkBlock
  by_cases h0 : tag = ""
  · rw [h0]
    by_cases hc : pyLower "text" = "命令" <;> simp [hc] <;> decide
  · by_cases hc : pyLower (if tag = "" then "text" else tag) = "命令"
    · simp only [hc, if_pos]; decide
    · simp only [if_neg hc]
      simpa [if_neg h0] using h

theorem scanBlocks_language :
    ∀ (f : Nat) {s : List Char} {pos : Nat} {b : CodeBlock},
      b ∈ scanBlocks f s pos → b.language.data.all isWordCharPy = true := by
  intro f
  induction f with
  | zero => intro s pos b h; exact absurd h (by simp [scanBlocks])
  | succ f ih =>
    intro s pos b h
    match s with
    | [] => exact absurd h (by simp [scanBlocks])
    | c :: t =>
      rw [scanBlocks] at h
      cases htry : tryBlock (c :: t) with
      | none => rw [htry] at h; exact ih h
      | some v =>
        obtain ⟨tag, content, len⟩ := v
        rw [htry] at h
        rcases List.mem_cons.mp h with rfl | h'
        · exact mkBlock_language_all content pos (pos + len) (tryBlock_tag htry)
        · exact ih h'

theorem pyLowerChar_eq_plus {c : Char} (h : pyLowerChar c = '+') : c = '+' := by
  unfold pyLowerChar at h
  split at h
  next hrange =>
    have hval : (Char.ofNat (c.toNat + 32)).toNat = c.toNat + 32 :=
      toNat_ofNat_valid _ (Or.inl (by omega))
    have : c.toNat + 32 = '+'.toNat := by rw [← hval, h]
    exact absurd this (by simp; omega)
  · exact h

theorem all_word_lower_ne_cpp {s : String}
    (h : s.data.all isWordCharPy = true) : pyLower s ≠ "c++" := by
  intro heq
  have hdata : s.data.map pyLowerChar = ['c', '+', '+'] := congrArg String.data heq
  rcases hd : s.data with _ | ⟨a, _ | ⟨b, _ | ⟨c, _ | ⟨d, rest⟩⟩⟩⟩ <;> rw [hd] at hdata h
  · exact absurd hdata (by simp)
  · exact absurd hdata (by simp)
  · exact absurd hdata (by simp)
  · have hb : pyLowerChar b = '+' := by
      have := congrArg (fun l => l.get? 1) hdata
      simpa using this
    have hbw : isWordCharPy b = true := by
      simp [List.all_cons] at h
      exact h.2.1
    rw [pyLowerChar_eq_plus hb] at hbw
    exact absurd hbw (by decide)
  · exact absurd hdata (by simp)

/-- C10: every block the parser returns carries a language tag made of word
characters only (`\w*` captures the tag; the default `text` and the rewrite
`bash` also qualify), so a fence tagged with a non-word character such as
`c++` is not recognized at all — in particular the lowered tag can never
equal `"c++"`, so that entry of the extension table is unreachable from a
parsed block. -/
theorem block_language_word_only :
    (∀ (text : String) (b : CodeBlock), b ∈ detect_code_blocks text →
        b.language.data.all isWordCharPy = true ∧ pyLower b.language ≠ "c++") ∧
    detect_code_blocks "```c++\nint x;\n```" = [] := by
  constructor
  · intro text b hb
    have hall := scanBlocks_language _ hb
    exact ⟨hall, all_word_lower_ne_cpp hall⟩
  · decide

theorem block_language_word_only_witness :
    (⟨"bash", "ls", 0, 14, false⟩ : CodeBlock) ∈ detect_code_blocks "```bash\nls\n```" ∧
    ("bash" : String).data.all isWordCharPy = true ∧ pyLower "bash" ≠ "c++" :=
  ⟨by decide,
   block_language_word_only.1 "```bash\nls\n```" ⟨"bash", "ls", 0, 14, false⟩ (by decide)⟩

/-! ## C5: round-trip law for fenced blocks

`serializeBlock` is the serialization named by the spec: triple-backtick +
tag + newline + content + newline + triple-backtick.  A block is well formed
when its tag consists of word characters (every parsed tag does) and its
content does not contain the closing delimiter `"\n```"` (no parsed content
does, since content capture is lazy). -/

def serializeBlock (tag content : String) : String :=
  "```" ++ tag ++ "\n" ++ content ++ "\n```"

theorem takeWhile_all_append (p : Char → Bool) {l : List Char}
    (hl : l.all p = true) {c : Char} (hc : p c = false) (r : List Char) :
    (l ++ c :: r).takeWhile p = l := by
  induction l with
  | nil => simp [List.takeWhile, hc]
  | cons a t ih =>
    rw [List.all_cons, Bool.and_eq_true] at hl
    rw [List.cons_append, List.takeWhile_cons, hl.1, ih hl.2]
    simp

theorem findClose_append (cs : List Char)
    (h : pySubAux "\n```".data cs = false) :
    findClose (cs ++ ['\n', '`', '`', '`']) = some cs.length := by
  induction cs with
  | nil => decide
  | cons c t ih =>
    rw [pySubAux, Bool.or_eq_false_iff] at h
    rw [List.cons_append, findClose]
    by_cases hnl : c = '\n'
    · subst hnl
      have hnp : "```".data.isPrefixOf (t ++ ['\n', '`', '`', '`']) = false := by
        have hfirst : "\n```".data.isPrefixOf ('\n' :: t) = false := h.1
        have hnt : "```".data.isPrefixOf t = false := by
          simpa [List.isPrefixOf] using hfirst
        rcases t with _ | ⟨a, _ | ⟨b, _ | ⟨d, rest⟩⟩⟩
        · decide
        · simp_all [List.isPrefixOf]
        · simp_all [List.isPrefixOf]
        · simp only [List.isPrefixOf, List.cons_append] at hnt ⊢
          simpa using (by simpa using hnt)
      rw [if_neg (by simp [hnp])]
      rw [ih h.2]
      rfl
    · rw [if_neg (by simp [hnl])]
      rw [ih h.2]
      rfl

theorem scanBlocks_nil (f pos : Nat) : scanBlocks f [] pos = [] := by
  cases f <;> rfl

theorem mkBlock_content (tag content : String) (a b : Nat) :
    (mkBlock tag content a b).content = content := by
  unfold mkBlock
  by_cases h : pyLower (if tag = "" then "text" else tag) = "命令" <;> simp [h]

theorem tryBlock_serialized {tag content : String}
    (htag : tag.data.all isWordCharPy = true)
    (hc : pySubAux "\n```".data content.data = false) :
    tryBlock ('`' :: '`' :: '`' :: (tag.data ++ '\n' :: (content.data ++ ['\n', '`', '`', '`']))) =
      some (tag, content, 3 + tag.data.length + 1 + content.data.length + 4) := by
  have hpre : "```".data.isPrefixOf
      ('`' :: '`' :: '`' :: (tag.data ++ '\n' :: (content.data ++ ['\n', '`', '`', '`']))) = true := by
    simp [List.isPrefixOf]
  unfold tryBlock
  rw [if_pos hpre]
  dsimp only
  rw [show ('`' :: '`' :: '`' :: (tag.data ++ '\n' :: (content.data ++ ['\n', '`', '`', '`']))).drop 3
      = tag.data ++ '\n' :: (content.data ++ ['\n', '`', '`', '`']) from rfl]
  rw [takeWhile_all_append _ htag (by decide)]
  rw [List.drop_left]
  show (match findClose (content.data ++ ['\n', '`', '`', '`']) with
    | some k => some ((⟨tag.data⟩ : String), (⟨(content.data ++ ['\n', '`', '`', '`']).take k⟩ : String),
        3 + tag.data.length + 1 + k + 4)
    | none => none) =
    some (tag, content, 3 + tag.data.length + 1 + content.data.length + 4)
  rw [findClose_append content.data hc]
  dsimp only
  rw [List.take_left]

/-- C5: parsing the serialization of a well-formed block yields exactly one
block whose content is byte-identical to the original. -/
theorem parse_serialize_roundtrip (tag content : String)
    (htag : tag.data.all isWordCharPy = true)
    (hc : pySubAux "\n```".data content.data = false) :
    (detect_code_blocks (serializeBlock tag content)).map (fun b => b.content) =
      [content] := by
  have hdata : (serializeBlock tag content).data =
      '`' :: '`' :: '`' :: (tag.data ++ '\n' :: (content.data ++ ['\n', '`', '`', '`'])) := by
    simp [serializeBlock]
  unfold detect_code_blocks
  rw [hdata]
  have hlen : ('`' :: '`' :: '`' :: (tag.data ++ '\n' :: (content.data ++ ['\n', '`', '`', '`']))).length
      = (tag.data.length + content.data.length + 7) + 1 := by
    simp
    omega
  rw [hlen, scanBlocks, tryBlock_serialized htag hc]
  dsimp only
  rw [List.drop_eq_nil_of_le (by simp; omega), scanBlocks_nil]
  simp [mkBlock_content]

theorem parse_serialize_roundtrip_witness :
    ("bash".data.all isWordCharPy = true) ∧
    (pySubAux "\n```".data "ls -la".data = false) ∧
    (detect_code_blocks (serializeBlock "bash" "ls -la")).map (fun b => b.content) =
      ["ls -la"] :=
  ⟨by decide, by decide, parse_serialize_roundtrip "bash" "ls -la" (by decide) (by decide)⟩

theorem keyFor_empty (m : String) : keyFor ⟨"", "", ""⟩ m = "" := by
  unfold keyFor
  split_ifs <;> rfl

theorem chatAttempts_no_keys (api : String → ApiResult) (tA : String)
    (hist : List (String × String)) (file : String) (cm : String) (rnd : Nat) :
    ∀ ms : List String,
      chatAttempts ⟨"", "", ""⟩ api tA hist file cm rnd ms =
        ⟨fallback_response rnd, hist ++ [("assistant", fallback_response rnd)],
          save_to_history tA "assistant" (fallback_response rnd) file, cm⟩ := by
  intro ms
  induction ms with
  | nil => rfl
  | cons m ms ih =>
    rw [chatAttempts, if_pos (keyFor_empty m)]
    exact ih

theorem fallback_mem_map (rnd : Nat) :
    fallback_response rnd ∈ fallbackResponses.map colorYellow := by
  have h5 : rnd % 5 < 5 := Nat.mod_lt _ (by norm_num)
  unfold fallback_response
  interval_cases h : rnd % 5 <;> simp [fallbackResponses]

/-- C3: with every API key empty, every model in the trial list is skipped by
the `if not API_KEYS[model]: continue` guard, so the turn reaches the
total-exhaustion path: it completes (the embedding is a total function — no
exception path exists in the loop, whose bodies are all skipped), returns a
yellow-wrapped message drawn from the fixed five-element fallback set, appends
it to the in-memory history after the user turn, and appends both turns to the
history file.  The preferred model is left unchanged. -/
theorem no_credentials_fallback (prompt tU tA cm : String) (rnd : Nat)
    (hist : List (String × String)) (file : String) (api : String → ApiResult)
    (_hcm : cm ∈ (["openai", "deepseek", "xai"] : List String)) :
    (chat_once ⟨"", "", ""⟩ api tU tA rnd hist file cm prompt).message =
        fallback_response rnd ∧
    (chat_once ⟨"", "", ""⟩ api tU tA rnd hist file cm prompt).message ∈
        fallbackResponses.map colorYellow ∧
    (chat_once ⟨"", "", ""⟩ api tU tA rnd hist file cm prompt).history =
        hist ++ [("user", prompt),
          ("assistant", (chat_once ⟨"", "", ""⟩ api tU tA rnd hist file cm prompt).message)] ∧
    (chat_once ⟨"", "", ""⟩ api tU tA rnd hist file cm prompt).file =
        save_to_history tA "assistant"
          ((chat_once ⟨"", "", ""⟩ api tU tA rnd hist file cm prompt).message)
          (save_to_history tU "user" prompt file) ∧
    (chat_once ⟨"", "", ""⟩ api tU tA rnd hist file cm prompt).model = cm := by
  unfold chat_once
  rw [chatAttempts_no_keys]
  refine ⟨rfl, fallback_mem_map rnd, by simp, rfl, rfl⟩

theorem no_credentials_fallback_witness :
    ("openai" ∈ (["openai", "deepseek", "xai"] : List String)) ∧
    (chat_once ⟨"", "", ""⟩ (fun _ => .connFail) "t1" "t2" 0 [] "" "openai" "hi").message =
      fallback_response 0 :=
  ⟨by decide,
   (no_credentials_fallback "hi" "t1" "t2" "openai" 0 [] "" (fun _ => .connFail)
     (by decide)).1⟩

/-- C8: a corrupt frame (whatever its shape: wrong prefix, empty, non-JSON or
non-conforming payload — `frameDelta` of its payload is `none` and it is not
the terminator) contributes nothing and removes nothing: aggregation of the
stream with the frame equals aggregation of the stream without it, provided
the terminator has not occurred before it.  In particular a well-formed `hi`
frame, one malformed frame, then the terminator aggregate to exactly `hi`. -/
theorem corrupt_frame_preserves_aggregate :
    (∀ (pre post : List String) (bad : String),
        (∀ l ∈ pre, l ≠ "data: [DONE]") →
        bad ≠ "data: [DONE]" →
        frameDelta (bad.drop 6) = none →
        aggregateStream (pre ++ bad :: post) = aggregateStream (pre ++ post)) ∧
    aggregateStream
      ["data: \x7b\"choices\": [\x7b\"delta\": \x7b\"content\": \"hi\"\x7d\x7d]\x7d",
       "data: not json", "data: [DONE]"] = "hi" := by
  constructor
  · intro pre post bad hpre hbad hmal
    induction pre with
    | nil =>
      simp only [List.nil_append]
      rw [aggregateStream]
      by_cases h0 : bad = ""
      · rw [if_pos h0]
      · rw [if_neg h0]
        by_cases hp : "data: ".data.isPrefixOf bad.data = true
        · rw [if_pos hp, if_neg hbad, hmal]
          simp
        · rw [if_neg hp]
    | cons l pre ih =>
      have hpre' : ∀ x ∈ pre, x ≠ "data: [DONE]" := fun x hx => hpre x (List.mem_cons_of_mem l hx)
      have hl : l ≠ "data: [DONE]" := hpre l (List.mem_cons_self l pre)
      simp only [List.cons_append]
      rw [aggregateStream, aggregateStream]
      by_cases h0 : l = ""
      · rw [if_pos h0, if_pos h0]
        exact ih hpre'
      · rw [if_neg h0, if_neg h0]
        by_cases hp : "data: ".data.isPrefixOf l.data = true
        · rw [if_pos hp, if_pos hp, if_neg hl, if_neg hl, ih hpre']
        · rw [if_neg hp, if_neg hp]
          exact ih hpre'
  · rfl

theorem corrupt_frame_preserves_aggregate_witness :
    ((∀ l ∈ (["data: \x7b\"choices\": [\x7b\"delta\": \x7b\"content\": \"hi\"\x7d\x7d]\x7d"] :
        List String), l ≠ "data: [DONE]") ∧
      ("data: not json" : String) ≠ "data: [DONE]" ∧
      frameDelta (("data: not json" : String).drop 6) = none) ∧
    aggregateStream
      (["data: \x7b\"choices\": [\x7b\"delta\": \x7b\"content\": \"hi\"\x7d\x7d]\x7d"] ++
        "data: not json" :: ["data: [DONE]"]) =
      aggregateStream
        (["data: \x7b\"choices\": [\x7b\"delta\": \x7b\"content\": \"hi\"\x7d\x7d]\x7d"] ++
          ["data: [DONE]"]) :=
  ⟨⟨by decide, by decide, by rfl⟩,
   corrupt_frame_preserves_aggregate.1 _ _ "data: not json" (by decide) (by decide) (by rfl)⟩

/-- The network situation of the C2 scenario: provider A (`deepseek`, the
preferred model) fails to connect — `call_deepseek_api` returns `None` — while
provider B (`xai`) would stream `"hello"` successfully. -/
def c2Net : String → ApiResult := fun m =>
  if m = "deepseek" then .connFail
  else if m = "xai" then
    .frames ["data: \x7b\"choices\": [\x7b\"delta\": \x7b\"content\": \"hello\"\x7d\x7d]\x7d",
      "data: [DONE]"]
  else .frames []

/-- C2 (code bug): with both providers holding credentials, A = `deepseek`
preferred and failing to connect, B = `xai` able to stream `"hello"` (first
conjunct), `chat_once` nevertheless persists A's ANSI-colored error text as
the assistant message and keeps A as the preferred model: `stream_response`
wraps every error sentinel in `colored_text(..., Fore.RED)`, so the
`message.startswith("错误:")` check in `chat_once` can never fire (the message
starts with the escape sequence `\x1b[31m`), the error result passes as a
success, and B is never tried. -/
theorem colored_error_persisted_as_success :
    stream_response ⟨"k", "k", "k"⟩ c2Net "xai" = "hello" ∧
    (chat_once ⟨"k", "k", "k"⟩ c2Net "t1" "t2" 0 [] "" "deepseek" "hi").message =
      colorRed "错误: 无法连接到deepseek服务" ∧
    (chat_once ⟨"k", "k", "k"⟩ c2Net "t1" "t2" 0 [] "" "deepseek" "hi").model =
      "deepseek" ∧
    (chat_once ⟨"k", "k", "k"⟩ c2Net "t1" "t2" 0 [] "" "deepseek" "hi").message ≠ "hello" ∧
    (chat_once ⟨"k", "k", "k"⟩ c2Net "t1" "t2" 0 [] "" "deepseek" "hi").history =
      [("user", "hi"), ("assistant", colorRed "错误: 无法连接到deepseek服务")] :=
  ⟨by rfl, by rfl, by rfl, by decide, by rfl⟩


/-! ## C6 and C7: history persistence round trip -/
theorem char_eq_of_toNat_eq {a b : Char} (h : a.toNat = b.toNat) : a = b :=
  Char.ofNat_toNat a ▸ Char.ofNat_toNat b ▸ congrArg Char.ofNat h

theorem hexpair (v : Nat) (hv : v < 32) (r : List Char) :
    uEscape '0' '0' (hexDigit (v / 16)) (hexDigit (v % 16)) r = some (Char.ofNat v, 0) := by
  have h16 : ∀ n, n < 16 → hexVal? (hexDigit n) = some n := by decide
  unfold uEscape
  rw [show hexVal? '0' = some 0 from by decide, h16 _ (by omega), h16 _ (by omega)]
  dsimp only
  rw [if_neg (by omega), if_neg (by omega)]
  rw [show ((0 * 16 + 0) * 16 + v / 16) * 16 + v % 16 = v by omega]

/-- Parsing back one escaped character: consuming `escChar c` takes the
parser one recursive step to the rest of the input. -/
theorem parseStrAux_escChar (f : Nat) (c : Char) (rest : List Char) :
    parseStrAux (f + 1) (escChar c ++ rest) =
      (parseStrAux f rest).map (fun p => (c :: p.1, p.2)) := by
  unfold escChar
  by_cases h1 : c = '"'
  · subst h1; rw [if_pos rfl]; rfl
  · rw [if_neg h1]
    by_cases h2 : c = '\\'
    · subst h2; rw [if_pos rfl]; rfl
    · rw [if_neg h2]
      by_cases h3 : c = '\x08'
      · subst h3; rw [if_pos rfl]; rfl
      · rw [if_neg h3]
        by_cases h4 : c = '\t'
        · subst h4; rw [if_pos rfl]; rfl
        · rw [if_neg h4]
          by_cases h5 : c = '\n'
          · subst h5; rw [if_pos rfl]; rfl
          · rw [if_neg h5]
            by_cases h6 : c = '\x0c'
            · subst h6; rw [if_pos rfl]; rfl
            · rw [if_neg h6]
              by_cases h7 : c = '\x0d'
              · subst h7; rw [if_pos rfl]; rfl
              · rw [if_neg h7]
                by_cases h8 : c.toNat < 0x20
                · rw [if_pos h8]
                  show parseStrAux (f + 1)
                    ('\\' :: 'u' :: '0' :: '0' :: hexDigit (c.toNat / 16) ::
                      hexDigit (c.toNat % 16) :: rest) = _
                  rw [parseStrAux.eq_def]
                  dsimp only
                  rw [if_neg (by decide), if_pos rfl]
                  rw [if_neg (by decide), if_neg (by decide), if_neg (by decide),
                    if_neg (by decide), if_neg (by decide), if_neg (by decide),
                    if_neg (by decide), if_neg (by decide), if_pos rfl]
                  rw [hexpair c.toNat h8 rest]
                  rw [Char.ofNat_toNat]
                  rfl
                · rw [if_neg h8]
                  show parseStrAux (f + 1) (c :: rest) = _
                  rw [parseStrAux.eq_def]
                  dsimp only
                  rw [if_neg h1, if_neg h2, if_neg h8]

theorem escape_length_ge (s : List Char) : s.length ≤ (escape s).length := by
  induction s with
  | nil => simp [escape]
  | cons c t ih =>
    have h1 : 1 ≤ (escChar c).length := by
      unfold escChar
      split_ifs <;> simp
    simp only [escape, List.map_cons, List.flatten_cons, List.length_append, List.length_cons]
    have := ih
    simp only [escape] at this
    omega

theorem escape_cons (c : Char) (t : List Char) :
    escape (c :: t) = escChar c ++ escape t := by
  simp [escape]

theorem parseStrAux_escape (s : List Char) : ∀ (fuel : Nat) (rest : List Char),
    s.length < fuel →
    parseStrAux fuel (escape s ++ '"' :: rest) = some (s, rest) := by
  induction s with
  | nil =>
    intro fuel rest h
    match fuel, h with
    | f + 1, _ =>
      show parseStrAux (f + 1) ('"' :: rest) = _
      rw [parseStrAux.eq_def]
      dsimp only
      rw [if_pos rfl]
  | cons c t ih =>
    intro fuel rest h
    match fuel, h with
    | f + 1, h =>
      rw [escape_cons, List.append_assoc, parseStrAux_escChar, ih f rest (by
        simp only [List.length_cons] at h
        omega)]
      rfl

theorem skipWs_cons_of_not (ch : Char) (l : List Char) (h : pyJsonWs ch = false) :
    skipWs (ch :: l) = ch :: l := by
  simp [skipWs, List.dropWhile, h]

theorem parseValueF_str (f : Nat) (s : String) (rest : List Char) :
    parseValueF (f + 1) ('"' :: (escape s.data ++ '"' :: rest)) = some (.str s, rest) := by
  show (parseStrAux ((escape s.data ++ '"' :: rest).length + 1)
    (escape s.data ++ '"' :: rest)).map (fun p => (JVal.str ⟨p.1⟩, p.2)) = _
  rw [parseStrAux_escape s.data _ rest (by
    have := escape_length_ge s.data
    have hsl : s.length = s.data.length := rfl
    simp [List.length_append]
    omega)]
  rfl

theorem skipWs_space (l : List Char) : skipWs (' ' :: l) = skipWs l := by
  simp [skipWs, List.dropWhile]
  rfl

theorem membersStep (g : Nat) (acc : List (String × JVal)) (key : String)
    (hkey : escape key.data = key.data) (v : String) (tail : List Char) :
    parseMembersF (g + 2) acc
      (key.data ++ '"' :: ':' :: ' ' :: '"' :: (escape v.data ++ '"' :: tail)) =
      (match skipWs tail with
       | '\x7d' :: r4 => some (.obj (acc ++ [(key, .str v)]), r4)
       | ',' :: r4 =>
         match skipWs r4 with
         | '"' :: r5 => parseMembersF (g + 1) (acc ++ [(key, .str v)]) r5
         | _ => none
       | _ => none) := by
  rw [parseMembersF]
  rw [show key.data ++ '"' :: ':' :: ' ' :: '"' :: (escape v.data ++ '"' :: tail)
      = escape key.data ++ '"' :: (':' :: ' ' :: '"' :: (escape v.data ++ '"' :: tail)) from by
    rw [hkey]]
  rw [parseStrAux_escape key.data _ _ (by
    have := escape_length_ge key.data
    have hkl : key.length = key.data.length := rfl
    simp [List.length_append]
    omega)]
  dsimp only
  rw [skipWs_cons_of_not ':' _ (by decide)]
  simp only []
  rw [skipWs_space, skipWs_cons_of_not '"' _ (by decide)]
  rw [parseValueF_str g v tail]

def recordJ (t r c : String) : JVal :=
  .obj [("time", .str t), ("role", .str r), ("content", .str c)]

theorem dumpRecord_shape (t r c : String) :
    (dumpRecord t r c).data =
      '\x7b' :: '"' :: ("time".data ++ '"' :: ':' :: ' ' :: '"' ::
        (escape t.data ++ '"' :: ',' :: ' ' :: '"' :: ("role".data ++ '"' :: ':' :: ' ' :: '"' ::
          (escape r.data ++ '"' :: ',' :: ' ' :: '"' :: ("content".data ++ '"' :: ':' :: ' ' :: '"' ::
            (escape c.data ++ '"' :: ['\x7d'])))))) := by
  have happ : ∀ a b : String, (a ++ b).data = a.data ++ b.data := fun _ _ => rfl
  simp [dumpRecord, quoteJson, happ]

theorem parseValueF_record (f : Nat) (t r c : String) :
    parseValueF (f + 5) ((dumpRecord t r c).data) = some (recordJ t r c, []) := by
  rw [dumpRecord_shape]
  show (match skipWs ('"' :: ("time".data ++ '"' :: ':' :: ' ' :: '"' ::
      (escape t.data ++ '"' :: ',' :: ' ' :: '"' :: ("role".data ++ '"' :: ':' :: ' ' :: '"' ::
        (escape r.data ++ '"' :: ',' :: ' ' :: '"' :: ("content".data ++ '"' :: ':' :: ' ' :: '"' ::
          (escape c.data ++ '"' :: ['\x7d']))))))) with
    | '\x7d' :: r => some (.obj [], r)
    | '"' :: r => parseMembersF (f + 4) [] r
    | _ => none) = some (recordJ t r c, [])
  rw [skipWs_cons_of_not '"' _ (by decide)]
  simp only []
  rw [show f + 4 = (f + 2) + 2 from rfl,
    membersStep (f + 2) [] "time" (by decide) t _]
  rw [skipWs_cons_of_not ',' _ (by decide)]
  simp only []
  rw [skipWs_space, skipWs_cons_of_not '"' _ (by decide)]
  simp only []
  rw [show f + 2 + 1 = (f + 1) + 2 from rfl,
    membersStep (f + 1) _ "role" (by decide) r _]
  rw [skipWs_cons_of_not ',' _ (by decide)]
  simp only []
  rw [skipWs_space, skipWs_cons_of_not '"' _ (by decide)]
  simp only []
  rw [show f + 1 + 1 = f + 2 from rfl,
    membersStep f _ "content" (by decide) c _]
  rw [skipWs_cons_of_not '\x7d' _ (by decide)]
  simp only []
  rfl

theorem string_data_append (a b : String) : (a ++ b).data = a.data ++ b.data := rfl

theorem jsonLoads_dumpRecord (t r c : String) :
    jsonLoads (dumpRecord t r c) = some (recordJ t r c) := by
  have hd : skipWs (dumpRecord t r c).data = (dumpRecord t r c).data := by
    rw [dumpRecord_shape]
    exact skipWs_cons_of_not _ _ (by decide)
  have hlen : (dumpRecord t r c).data.length + 1 = ((dumpRecord t r c).data.length - 4) + 5 := by
    rw [dumpRecord_shape]
    simp [List.length_append]
  unfold jsonLoads
  dsimp only
  rw [hd, hlen, parseValueF_record]
  rfl

theorem pyStripL_no_space_ends {l : List Char}
    (h1 : ∀ a, l.head? = some a → pyIsSpace a = false)
    (h2 : ∀ a, l.getLast? = some a → pyIsSpace a = false) :
    pyStripL l = l := by
  unfold pyStripL
  have hd : l.dropWhile pyIsSpace = l := by
    cases l with
    | nil => rfl
    | cons c t => rw [List.dropWhile_cons, h1 c rfl]; simp
  rw [hd]
  have hr : l.reverse.dropWhile pyIsSpace = l.reverse := by
    cases hrev : l.reverse with
    | nil => rfl
    | cons c t =>
      have hlast : l.getLast? = some c := by
        rw [← List.head?_reverse, hrev]
        rfl
      rw [List.dropWhile_cons, h2 c hlast]
      simp
  rw [hr, List.reverse_reverse]

theorem dumpRecord_getLast (t r c : String) :
    (dumpRecord t r c).data.getLast? = some '\x7d' := by
  have hsplit : (dumpRecord t r c).data =
      ("\x7b\"time\": " ++ quoteJson t ++ ", \"role\": " ++ quoteJson r ++
        ", \"content\": " ++ quoteJson c).data ++ ['\x7d'] := by
    simp [dumpRecord, quoteJson, string_data_append]
  rw [hsplit, List.getLast?_concat]

theorem pyStrip_dumpRecord (t r c : String) :
    pyStrip (dumpRecord t r c) = dumpRecord t r c := by
  show (⟨pyStripL (dumpRecord t r c).data⟩ : String) = dumpRecord t r c
  rw [pyStripL_no_space_ends]
  · intro a ha
    rw [dumpRecord_shape] at ha
    simp at ha
    rw [← ha]
    rfl
  · intro a ha
    rw [dumpRecord_getLast] at ha
    simp at ha
    rw [← ha]
    rfl

theorem hexDigit_not_newline : ∀ n, n < 16 → hexDigit n ≠ '\n' := by decide

theorem newline_not_mem_escChar (c : Char) : '\n' ∉ escChar c := by
  unfold escChar
  split_ifs with h1 h2 h3 h4 h5 h6 h7 h8
  · decide
  · decide
  · decide
  · decide
  · decide
  · decide
  · decide
  · intro hmem
    simp only [List.mem_cons, List.not_mem_nil, or_false] at hmem
    rcases hmem with h | h | h | h | h | h
    · exact absurd h.symm (by decide)
    · exact absurd h.symm (by decide)
    · exact absurd h.symm (by decide)
    · exact absurd h.symm (by decide)
    · exact hexDigit_not_newline (c.toNat / 16) (by omega) h.symm
    · exact hexDigit_not_newline (c.toNat % 16) (by omega) h.symm
  · intro hmem
    simp only [List.mem_cons, List.not_mem_nil, or_false] at hmem
    rw [hmem] at h5
    exact h5 rfl

theorem newline_not_mem_escape (s : List Char) : '\n' ∉ escape s := by
  induction s with
  | nil => simp [escape]
  | cons c t ih =>
    rw [escape_cons]
    intro hmem
    rcases List.mem_append.mp hmem with h | h
    · exact newline_not_mem_escChar c h
    · exact ih h

theorem newline_not_mem_dump (t r c : String) : '\n' ∉ (dumpRecord t r c).data := by
  intro hmem
  rw [dumpRecord_shape] at hmem
  simp +decide [newline_not_mem_escape] at hmem

theorem splitNlL_append_no_nl (x : List Char) (hx : '\n' ∉ x) (ys : List Char) :
    splitNlL (x ++ '\n' :: ys) = x :: splitNlL ys := by
  induction x with
  | nil => simp [splitNlL]
  | cons c t ih =>
    have hc : c ≠ '\n' := fun h => hx (h ▸ List.mem_cons_self c t)
    have ht : '\n' ∉ t := fun h => hx (List.mem_cons_of_mem c h)
    rw [List.cons_append, splitNlL, if_neg hc, ih ht]

/-- The file contents after persisting `msgs` (each a `(time, role, content)`
triple) on top of `file`. -/
def saveAll (msgs : List (String × String × String)) (file : String) : String :=
  msgs.foldl (fun f m => save_to_history m.1 m.2.1 m.2.2 f) file

theorem saveAll_data (msgs : List (String × String × String)) :
    ∀ file : String, (saveAll msgs file).data =
      file.data ++ (msgs.map (fun m => (dumpRecord m.1 m.2.1 m.2.2).data ++ ['\n'])).flatten := by
  induction msgs with
  | nil => intro file; simp [saveAll]
  | cons m ms ih =>
    intro file
    show (saveAll ms (save_to_history m.1 m.2.1 m.2.2 file)).data = _
    rw [ih]
    simp [save_to_history, string_data_append]

theorem splitNlL_flatten (msgs : List (String × String × String)) :
    splitNlL ((msgs.map (fun m => (dumpRecord m.1 m.2.1 m.2.2).data ++ ['\n'])).flatten) =
      (msgs.map (fun m => (dumpRecord m.1 m.2.1 m.2.2).data)) ++ [[]] := by
  induction msgs with
  | nil => rfl
  | cons m ms ih =>
    simp only [List.map_cons, List.flatten_cons, List.append_assoc, List.singleton_append]
    rw [splitNlL_append_no_nl _ (newline_not_mem_dump _ _ _), ih]
    rfl

theorem fileLines_saveAll (msgs : List (String × String × String)) :
    fileLines (saveAll msgs "") =
      msgs.map (fun m => dumpRecord m.1 m.2.1 m.2.2) := by
  unfold fileLines splitNl
  rw [saveAll_data msgs ""]
  rw [show ("" : String).data = [] from rfl, List.nil_append]
  rw [splitNlL_flatten]
  rw [List.map_append]
  have hlast : ((msgs.map (fun m => (dumpRecord m.1 m.2.1 m.2.2).data)).map (fun l => (⟨l⟩ : String))
      ++ ([[]].map (fun l => (⟨l⟩ : String)))).getLast? = some "" := by
    rw [show ([[]].map (fun l => (⟨l⟩ : String))) = [""] from rfl]
    exact List.getLast?_concat _
  rw [if_pos hlast]
  rw [show ([[]].map (fun l => (⟨l⟩ : String))) = [""] from rfl]
  rw [List.dropLast_concat]
  rw [List.map_map]
  rfl

theorem loadLine_dump (acc : List (JVal × JVal)) (t r c : String) :
    loadLine acc (dumpRecord t r c) = .ok (acc ++ [(.str r, .str c)]) := by
  unfold loadLine
  rw [pyStrip_dumpRecord, jsonLoads_dumpRecord]
  rfl

theorem foldlM_loadLine_dumps (msgs : List (String × String × String)) :
    ∀ acc : List (JVal × JVal),
      (msgs.map (fun m => dumpRecord m.1 m.2.1 m.2.2)).foldlM loadLine acc =
        .ok (acc ++ msgs.map (fun m => (JVal.str m.2.1, JVal.str m.2.2))) := by
  induction msgs with
  | nil =>
    intro acc
    simp only [List.map_nil, List.foldlM_nil, List.append_nil]
    rfl
  | cons m ms ih =>
    intro acc
    rw [List.map_cons, List.foldlM_cons, loadLine_dump]
    show (ms.map (fun m => dumpRecord m.1 m.2.1 m.2.2)).foldlM loadLine
      (acc ++ [(.str m.2.1, .str m.2.2)]) = _
    rw [ih]
    simp

theorem loadLine_extends {acc : List (JVal × JVal)} {line : String}
    {res : List (JVal × JVal)} (h : loadLine acc line = .ok res) :
    ∃ ext, res = acc ++ ext := by
  unfold loadLine at h
  split at h
  · refine ⟨[], ?_⟩
    rw [List.append_nil]
    exact (Except.ok.injEq _ _ ▸ h).symm ▸ rfl
  next v heq =>
    cases hr : getItem v "role" with
    | error e => rw [hr] at h; exact Except.noConfusion h
    | ok rv =>
      cases hc : getItem v "content" with
      | error e => rw [hr, hc] at h; exact Except.noConfusion h
      | ok cv =>
        rw [hr, hc] at h
        refine ⟨[(rv, cv)], ?_⟩
        have : Except.ok (ε := PyErr) (acc ++ [(rv, cv)]) = Except.ok res := h
        simpa using this.symm

theorem foldlM_loadLine_extends (lines : List String) :
    ∀ (acc res : List (JVal × JVal)),
      lines.foldlM loadLine acc = .ok res → ∃ ext, res = acc ++ ext := by
  induction lines with
  | nil =>
    intro acc res h
    refine ⟨[], ?_⟩
    have : Except.ok (ε := PyErr) acc = Except.ok res := h
    simpa using this.symm
  | cons l ls ih =>
    intro acc res h
    rw [List.foldlM_cons] at h
    cases hL : loadLine acc l with
    | error e => rw [hL] at h; exact Except.noConfusion h
    | ok acc' =>
      rw [hL] at h
      obtain ⟨e1, he1⟩ := loadLine_extends hL
      obtain ⟨e2, he2⟩ := ih acc' res h
      exact ⟨e1 ++ e2, by rw [he2, he1, List.append_assoc]⟩

/-- C6: persisting messages `m1..mn` (with arbitrary timestamps, roles and
contents) into an empty history file via `save_to_history` and reloading via
`load_history` yields the fixed System message followed by `m1..mn` with the
same roles and contents in order; and whatever the file contains, a load that
returns at all returns a sequence headed by the System message. -/
theorem history_replay :
    (∀ msgs : List (String × String × String),
        load_history (msgs.foldl (fun f m => save_to_history m.1 m.2.1 m.2.2 f) "") =
          .ok ((.str "system", .str SYSTEM_PROMPT) ::
            msgs.map (fun m => (JVal.str m.2.1, JVal.str m.2.2)))) ∧
    (∀ (file : String) (res : List (JVal × JVal)),
        load_history file = .ok res →
        res.head? = some (.str "system", .str SYSTEM_PROMPT)) := by
  constructor
  · intro msgs
    show (fileLines (saveAll msgs "")).foldlM loadLine _ = _
    rw [fileLines_saveAll, foldlM_loadLine_dumps]
    rfl
  · intro file res h
    obtain ⟨ext, hext⟩ := foldlM_loadLine_extends _ _ _ h
    rw [hext]
    rfl

theorem history_replay_witness :
    load_history (save_to_history "t0" "user" "hello" "") =
      .ok [(.str "system", .str SYSTEM_PROMPT), (.str "user", .str "hello")] ∧
    ([((JVal.str "system"), (JVal.str SYSTEM_PROMPT)), (.str "user", .str "hello")] :
      List (JVal × JVal)).head? = some (.str "system", .str SYSTEM_PROMPT) :=
  ⟨history_replay.1 [("t0", "user", "hello")],
   history_replay.2 _ _ (history_replay.1 [("t0", "user", "hello")])⟩

/-- C7 counterexample: a line holding perfectly valid JSON that is not an
object with the expected keys — here the object `{"x": 1}` — is not skipped:
`load_history` catches only `json.JSONDecodeError`, so the `KeyError` from
`msg["role"]` propagates and the whole load aborts. -/
theorem load_aborts_on_keyless_json_line :
    load_history "\x7b\"x\": 1\x7d\n" = .error .keyError := by rfl

theorem loadLine_none {acc : List (JVal × JVal)} {l : String}
    (hj : jsonLoads (pyStrip l) = none) : loadLine acc l = .ok acc := by
  unfold loadLine
  rw [hj]

theorem loadLine_conforming {acc : List (JVal × JVal)} {l : String} {v : JVal}
    {rv cv : JVal} (hj : jsonLoads (pyStrip l) = some v)
    (h1 : getItem v "role" = .ok rv) (h2 : getItem v "content" = .ok cv) :
    loadLine acc l = .ok (acc ++ [(rv, cv)]) := by
  unfold loadLine
  rw [hj]
  show (getItem v "role").bind (fun r => (getItem v "content").bind
    (fun c => .ok (acc ++ [(r, c)]))) = _
  rw [h1, h2]
  rfl

theorem foldlM_loadLine_ok (lines : List String) :
    (∀ line ∈ lines, ∀ v, jsonLoads (pyStrip line) = some v →
        ∃ rv cv, getItem v "role" = .ok rv ∧ getItem v "content" = .ok cv) →
    ∀ acc : List (JVal × JVal), ∃ res, lines.foldlM loadLine acc = .ok res := by
  induction lines with
  | nil => intro _ acc; exact ⟨acc, rfl⟩
  | cons l ls ih =>
    intro h acc
    have hrest : ∀ line ∈ ls, ∀ v, jsonLoads (pyStrip line) = some v →
        ∃ rv cv, getItem v "role" = .ok rv ∧ getItem v "content" = .ok cv :=
      fun line hl => h line (List.mem_cons_of_mem l hl)
    rw [List.foldlM_cons]
    cases hj : jsonLoads (pyStrip l) with
    | none =>
      rw [loadLine_none hj]
      exact ih hrest acc
    | some v =>
      obtain ⟨rv, cv, h1, h2⟩ := h l (List.mem_cons_self l ls) v hj
      rw [loadLine_conforming hj h1 h2]
      exact ih hrest (acc ++ [(rv, cv)])

/-- C7 as amended: a line that fails to parse as JSON is skipped (with a
warning) and never aborts the load; but the load is only guaranteed to return
when every line that does parse as JSON is an object carrying both `role` and
`content` keys — any other JSON value raises an uncaught
`KeyError`/`TypeError` that aborts `load_history` (see the counterexample). -/
theorem load_history_ok_of_conforming (file : String)
    (h : ∀ line ∈ fileLines file, ∀ v, jsonLoads (pyStrip line) = some v →
        ∃ rv cv, getItem v "role" = .ok rv ∧ getItem v "content" = .ok cv) :
    ∃ msgs, load_history file = .ok msgs :=
  foldlM_loadLine_ok (fileLines file) h _

theorem load_history_ok_of_conforming_witness :
    (∀ line ∈ fileLines "not json
also not json
", ∀ v,
        jsonLoads (pyStrip line) = some v →
        ∃ rv cv, getItem v "role" = .ok rv ∧ getItem v "content" = .ok cv) ∧
    ∃ msgs, load_history "not json
also not json
" = .ok msgs := by
  have hconf : ∀ line ∈ fileLines "not json
also not json
", ∀ v,
      jsonLoads (pyStrip line) = some v →
      ∃ rv cv, getItem v "role" = .ok rv ∧ getItem v "content" = .ok cv := by
    intro line hline v hv
    fin_cases hline
    · exact Option.noConfusion hv
    · exact Option.noConfusion hv
  exact ⟨hconf, load_history_ok_of_conforming _ hconf⟩
